import Mathlib

/-!
Shallow embedding of the dns-server repository (src/lib.rs and src/main.rs).

The bytebuffer cursor used by the source is modeled as a list of bits,
most-significant bit of each byte first.  Every byte-level read or write in
the source happens at bit offset 0 (the only sub-byte accesses are the sixteen
flag bits, which together consume exactly two bytes), so byte operations are
faithfully modeled as aligned 8-bit groups.  Machine integers are Nat with
explicit truncation (`% 2 ^ w` or the implicit low-bit masking of `writeBits`)
at the places where the Rust types truncate.  Rust `Result` values are modeled
with `RRes`, which also distinguishes the one process-aborting path
(`panic!` on an invalid UTF-8 label) from recoverable errors.
-/

set_option maxHeartbeats 1000000
set_option maxRecDepth 16384

namespace Dns

/-- Model of bytebuffer `write_bit`: append one bit. -/
def writeBit (b : Bool) (buf : List Bool) : List Bool := buf ++ [b]

/-- Model of bytebuffer `write_bits`: append the low `n` bits of `value`,
most significant first. -/
def writeBits (value : Nat) : Nat → List Bool → List Bool
  | 0, buf => buf
  | n + 1, buf => writeBits value n (buf ++ [value.testBit n])

/-- The bit image of the low `n` bits of `value` on their own, most
significant first. -/
def bitsOf (value n : Nat) : List Bool := writeBits value n []

/-- Model of bytebuffer `read_bit`. -/
def readBit : List Bool → Option (Bool × List Bool)
  | [] => none
  | b :: rest => some (b, rest)

/-- Accumulator loop of bytebuffer `read_bits`: `res = res << 1 | bit`. -/
def readBitsAux : Nat → Nat → List Bool → Option (Nat × List Bool)
  | acc, 0, bits => some (acc, bits)
  | _, _ + 1, [] => none
  | acc, n + 1, b :: rest => readBitsAux (acc * 2 + b.toNat) n rest

/-- Model of bytebuffer `read_bits` (also used for the aligned byte reads
`read_u8`/`read_u16`/`read_u32` with `n` = 8/16/32, network byte order). -/
def readBits (n : Nat) (bits : List Bool) : Option (Nat × List Bool) :=
  readBitsAux 0 n bits

/-- Model of bytebuffer `read_bytes`: `k` consecutive bytes. -/
def read_bytes : Nat → List Bool → Option (List Nat × List Bool)
  | 0, bits => some ([], bits)
  | k + 1, bits =>
    match readBits 8 bits with
    | none => none
    | some (b, rest) =>
      match read_bytes k rest with
      | none => none
      | some (bs, rest2) => some (b :: bs, rest2)

/-- UTF-8 byte width of a character, as used by Rust `str::len`. -/
def charUtf8Len (c : Char) : Nat :=
  if c.toNat < 128 then 1
  else if c.toNat < 2048 then 2
  else if c.toNat < 65536 then 3
  else 4

/-- Rust `String::len` / `str::len`: length in UTF-8 bytes. -/
def strByteLen (l : List Char) : Nat := (l.map charUtf8Len).sum

/-- UTF-8 continuation byte test (`10xxxxxx`). -/
def isContByte (b : Nat) : Bool := 128 ≤ b && b < 192

/-- Model of Rust `std::str::from_utf8`: strict UTF-8 decoding, rejecting
overlong forms, surrogates, and out-of-range scalar values. -/
def utf8DecodeList : List Nat → Option (List Char)
  | [] => some []
  | b :: rest =>
    if b < 128 then
      match utf8DecodeList rest with
      | some cs => some (Char.ofNat b :: cs)
      | none => none
    else if b < 192 then none
    else
      match rest with
      | [] => none
      | b1 :: rest1 =>
        if b < 224 then
          if isContByte b1 && decide (128 ≤ (b - 192) * 64 + (b1 - 128)) then
            match utf8DecodeList rest1 with
            | some cs => some (Char.ofNat ((b - 192) * 64 + (b1 - 128)) :: cs)
            | none => none
          else none
        else
          match rest1 with
          | [] => none
          | b2 :: rest2 =>
            if b < 240 then
              if isContByte b1 && isContByte b2 &&
                  (let cp := (b - 224) * 4096 + (b1 - 128) * 64 + (b2 - 128)
                   decide (2048 ≤ cp ∧ (cp < 55296 ∨ 57344 ≤ cp))) then
                match utf8DecodeList rest2 with
                | some cs =>
                  some (Char.ofNat ((b - 224) * 4096 + (b1 - 128) * 64 + (b2 - 128)) :: cs)
                | none => none
              else none
            else
              match rest2 with
              | [] => none
              | b3 :: rest3 =>
                if b < 245 then
                  if isContByte b1 && isContByte b2 && isContByte b3 &&
                      (let cp := (b - 240) * 262144 + (b1 - 128) * 4096 +
                        (b2 - 128) * 64 + (b3 - 128)
                       decide (65536 ≤ cp ∧ cp < 1114112)) then
                    match utf8DecodeList rest3 with
                    | some cs =>
                      some (Char.ofNat ((b - 240) * 262144 + (b1 - 128) * 4096 +
                        (b2 - 128) * 64 + (b3 - 128)) :: cs)
                    | none => none
                  else none
                else none

/-- Rust `str::split('.')`: pieces between dots; the empty string yields one
empty piece, and consecutive dots yield empty pieces. -/
def splitDot : List Char → List (List Char)
  | [] => [[]]
  | c :: rest =>
    if c = '.' then [] :: splitDot rest
    else
      match splitDot rest with
      | t :: ts => (c :: t) :: ts
      | [] => [[c]]

/-- Error taxonomy of the failure sites in the source (all boxed as
`Box<dyn Error>` there; the constructor records which site produced it). -/
inductive DnsError where
  | endOfBuffer
  | unknownType
  | unknownClass
  | malformedAddress
deriving DecidableEq, Repr

/-- Outcome of running a fallible piece of the source: a Rust `Ok`, a Rust
`Err`, or a process abort. -/
inductive RRes (α : Type) where
  | ok : α → RRes α
  | err : DnsError → RRes α
  | panicked : RRes α
deriving DecidableEq, Repr

/-- QType from src/lib.rs. -/
inductive QType where
  | Unknown : Nat → QType
  | A
  | CNAME
deriving DecidableEq, Repr

/-- QType::from_u16 (returns a boxed ParseError on every code other than 1, 5). -/
def QType.from_u16 (value : Nat) : Option QType :=
  match value with
  | 1 => some QType.A
  | 5 => some QType.CNAME
  | _ => none

/-- QType::to_u16. -/
def QType.to_u16 : QType → Nat
  | QType.A => 1
  | QType.CNAME => 5
  | QType.Unknown v => v

/-- QClass from src/lib.rs. -/
inductive QClass where
  | Unknown : Nat → QClass
  | IN
deriving DecidableEq, Repr

/-- QClass::from_u16. -/
def QClass.from_u16 (value : Nat) : Option QClass :=
  match value with
  | 1 => some QClass.IN
  | _ => none

/-- QClass::to_u16. -/
def QClass.to_u16 : QClass → Nat
  | QClass.IN => 1
  | QClass.Unknown v => v

/-- Flags from src/lib.rs (the field name typo is kept from the source). -/
structure Flags where
  qr : Bool
  opcode : Nat
  authorihative_answer : Bool
  truncate : Bool
  recursion_desired : Bool
  recursion_available : Bool
  response_code : Nat
deriving DecidableEq, Repr

/-- Flags::read_buf. -/
def Flags.read_buf (bits : List Bool) : RRes (Flags × List Bool) :=
  match readBit bits with
  | none => .err .endOfBuffer
  | some (qr, r1) =>
  match readBits 4 r1 with
  | none => .err .endOfBuffer
  | some (opcode, r2) =>
  match readBit r2 with
  | none => .err .endOfBuffer
  | some (aa, r3) =>
  match readBit r3 with
  | none => .err .endOfBuffer
  | some (tc, r4) =>
  match readBit r4 with
  | none => .err .endOfBuffer
  | some (rd, r5) =>
  match readBit r5 with
  | none => .err .endOfBuffer
  | some (ra, r6) =>
  match readBits 3 r6 with
  | none => .err .endOfBuffer
  | some (_, r7) =>
  match readBits 4 r7 with
  | none => .err .endOfBuffer
  | some (rc, r8) =>
    .ok ({ qr := qr, opcode := opcode, authorihative_answer := aa, truncate := tc,
           recursion_desired := rd, recursion_available := ra, response_code := rc }, r8)

/-- Flags::write_buf. -/
def Flags.write_buf (f : Flags) (buf : List Bool) : List Bool :=
  writeBits f.response_code 4
    (writeBits 0 3
      (writeBit f.recursion_available
        (writeBit f.recursion_desired
          (writeBit f.truncate
            (writeBit f.authorihative_answer
              (writeBits f.opcode 4 (writeBit f.qr buf)))))))

/-- DnsHeader from src/lib.rs. -/
structure DnsHeader where
  id : Nat
  flags : Flags
  questions : Nat
  answers : Nat
  authorities : Nat
  additional : Nat
deriving DecidableEq, Repr

/-- DnsHeader::read_buf. -/
def DnsHeader.read_buf (bits : List Bool) : RRes (DnsHeader × List Bool) :=
  match readBits 16 bits with
  | none => .err .endOfBuffer
  | some (i, r1) =>
  match Flags.read_buf r1 with
  | .err e => .err e
  | .panicked => .panicked
  | .ok (fl, r2) =>
  match readBits 16 r2 with
  | none => .err .endOfBuffer
  | some (qd, r3) =>
  match readBits 16 r3 with
  | none => .err .endOfBuffer
  | some (an, r4) =>
  match readBits 16 r4 with
  | none => .err .endOfBuffer
  | some (ns, r5) =>
  match readBits 16 r5 with
  | none => .err .endOfBuffer
  | some (ar, r6) =>
    .ok ({ id := i, flags := fl, questions := qd, answers := an,
           authorities := ns, additional := ar }, r6)

/-- DnsHeader::write_buf. -/
def DnsHeader.write_buf (h : DnsHeader) (buf : List Bool) : List Bool :=
  writeBits h.additional 16
    (writeBits h.authorities 16
      (writeBits h.answers 16
        (writeBits h.questions 16 (Flags.write_buf h.flags (writeBits h.id 16 buf)))))

/-- Question from src/lib.rs. -/
structure Question where
  qname : String
  qtype : QType
  qclass : QClass
deriving DecidableEq, Repr

/-- none_if_zero from src/lib.rs. -/
def none_if_zero (byte : Nat) : Option Nat :=
  match byte with
  | 0 => none
  | size => some size

/-- The label-reading loop of Question::read_buf, parameterized by fuel:
length byte, then that many bytes interpreted as UTF-8 text (aborting the
process when invalid), until a zero length byte.  Each iteration consumes at
least one byte of input, so with the fuel `readTokens` supplies the
exhaustion branch is unreachable. -/
def readTokensF : Nat → List Bool → RRes (List String × List Bool)
  | 0, _ => .err .endOfBuffer
  | fuel + 1, bits =>
    match readBits 8 bits with
    | none => .err .endOfBuffer
    | some (b, rest) =>
      match none_if_zero b with
      | none => .ok ([], rest)
      | some size =>
        match read_bytes size rest with
        | none => .err .endOfBuffer
        | some (bytes, rest2) =>
          match utf8DecodeList bytes with
          | none => .panicked
          | some chars =>
            match readTokensF fuel rest2 with
            | .ok (tokens, rest3) => .ok (String.mk chars :: tokens, rest3)
            | .err e => .err e
            | .panicked => .panicked

/-- The label-reading loop of Question::read_buf: the `while let` loop of the
source, run with enough fuel for its input. -/
def readTokens (bits : List Bool) : RRes (List String × List Bool) :=
  readTokensF (bits.length + 1) bits

/-- Question::read_buf. -/
def Question.read_buf (bits : List Bool) : RRes (Question × List Bool) :=
  match readTokens bits with
  | .err e => .err e
  | .panicked => .panicked
  | .ok (tokens, rest) =>
    match readBits 16 rest with
    | none => .err .endOfBuffer
    | some (t, r1) =>
      match QType.from_u16 t with
      | none => .err .unknownType
      | some qt =>
        match readBits 16 r1 with
        | none => .err .endOfBuffer
        | some (c, r2) =>
          match QClass.from_u16 c with
          | none => .err .unknownClass
          | some qc =>
            .ok ({ qname := String.intercalate "." tokens, qtype := qt, qclass := qc }, r2)

/-- The name-encoding loop shared by Question::write_buf and Answer::write_buf:
for each dot-separated token, a length byte (`token.len() as u8`, a UTF-8 byte
count truncated to u8) followed by one byte per char (`c as u8`), then a zero
terminator byte. -/
def writeName (name : String) (buf : List Bool) : List Bool :=
  writeBits 0 8
    ((splitDot name.data).foldl
      (fun b t =>
        t.foldl (fun b2 c => writeBits (c.toNat % 256) 8 b2)
          (writeBits (strByteLen t % 256) 8 b))
      buf)

/-- Question::write_buf. -/
def Question.write_buf (q : Question) (buf : List Bool) : List Bool :=
  writeBits (QClass.to_u16 q.qclass) 16
    (writeBits (QType.to_u16 q.qtype) 16 (writeName q.qname buf))

/-- Answer from src/lib.rs. -/
structure Answer where
  name : String
  qtype : QType
  qclass : QClass
  ttl : Nat
  length : Nat
  data : List Nat
deriving DecidableEq, Repr

/-- Answer::write_buf. -/
def Answer.write_buf (a : Answer) (buf : List Bool) : List Bool :=
  a.data.foldl (fun b c => writeBits c 8 b)
    (writeBits a.length 16
      (writeBits a.ttl 32
        (writeBits (QClass.to_u16 a.qclass) 16
          (writeBits (QType.to_u16 a.qtype) 16 (writeName a.name buf)))))

/-- DnsQuery from src/lib.rs. -/
structure DnsQuery where
  header : DnsHeader
  questions : List Question
  answers : List Answer
deriving DecidableEq, Repr

/-- The question-reading loop of DnsQuery::from_buffer. -/
def readQuestions : Nat → List Bool → RRes (List Question × List Bool)
  | 0, bits => .ok ([], bits)
  | n + 1, bits =>
    match Question.read_buf bits with
    | .err e => .err e
    | .panicked => .panicked
    | .ok (q, rest) =>
      match readQuestions n rest with
      | .err e => .err e
      | .panicked => .panicked
      | .ok (qs, rest2) => .ok (q :: qs, rest2)

/-- DnsQuery::from_buffer. -/
def DnsQuery.from_buffer (bits : List Bool) : RRes DnsQuery :=
  match DnsHeader.read_buf bits with
  | .err e => .err e
  | .panicked => .panicked
  | .ok (h, rest) =>
    match readQuestions h.questions rest with
    | .err e => .err e
    | .panicked => .panicked
    | .ok (qs, _) => .ok { header := h, questions := qs, answers := [] }

/-- DnsQuery::write_buf. -/
def DnsQuery.write_buf (q : DnsQuery) (buf : List Bool) : List Bool :=
  q.answers.foldl (fun b a => Answer.write_buf a b)
    (q.questions.foldl (fun b x => Question.write_buf x b)
      (DnsHeader.write_buf q.header buf))

/-- DnsRecord from src/lib.rs. -/
structure DnsRecord where
  qname : String
  qclass : QClass
  qtype : QType
  entry : String
deriving DecidableEq, Repr

/-- DnsRecord::length. -/
def DnsRecord.length (r : DnsRecord) : Nat :=
  if r.qtype = QType.A then 4 else strByteLen r.entry.data + 1

/-- Digit-accumulation loop of Rust `u8::from_str` (`from_str_radix` base 10):
checked multiply-and-add, failing on a non-digit or on overflow past 255. -/
def parseDigits : List Char → Nat → Option Nat
  | [], acc => some acc
  | c :: cs, acc =>
    if c.isDigit then
      if 255 < acc * 10 + (c.toNat - 48) then none
      else parseDigits cs (acc * 10 + (c.toNat - 48))
    else none

/-- Rust `str::parse::<u8>()`: optional leading plus sign, then one or more
decimal digits, value at most 255. -/
def parseU8 (t : List Char) : Option Nat :=
  match t with
  | [] => none
  | '+' :: rest => if rest.isEmpty then none else parseDigits rest 0
  | _ => parseDigits t 0

/-- The A-branch loop of DnsRecord::data: parse every dot-separated piece as a
u8, aborting at the first failure. -/
def parseOctets : List (List Char) → Option (List Nat)
  | [] => some []
  | t :: ts =>
    match parseU8 t with
    | none => none
    | some v =>
      match parseOctets ts with
      | none => none
      | some vs => some (v :: vs)

/-- DnsRecord::data. -/
def DnsRecord.data (r : DnsRecord) : Option (List Nat) :=
  if r.qtype = QType.A then
    parseOctets (splitDot r.entry.data)
  else
    some ((splitDot r.entry.data).foldl
      (fun res t => (res ++ [strByteLen t % 256]) ++ t.map (fun c => c.toNat % 256)) []
      ++ [0])

/-- The three chained filters of `handle` in src/main.rs. -/
def matchedRecords (records : List DnsRecord) (q : Question) : List DnsRecord :=
  ((records.filter (fun r => decide (r.qtype = q.qtype))).filter
      (fun r => decide (r.qclass = q.qclass))).filter
    (fun r => decide (r.qname = q.qname))

/-- The record `let record = matched_records[index]` picks in `handle`, at
index `next_u32() % len` (the random source is modeled as the stream `rand`,
read once per answered question). -/
def selectedRecord (records : List DnsRecord) (rand : Nat → Nat) (q : Question)
    (i : Nat) (h : matchedRecords records q ≠ []) : DnsRecord :=
  (matchedRecords records q).get
    ⟨rand i % (matchedRecords records q).length, Nat.mod_lt _ (List.length_pos.mpr h)⟩

/-- The per-question loop of `handle`: skip a question with no matching
record; otherwise pick `selectedRecord` and synthesize one answer with ttl 60,
the record name/type/class, declared length `record.length() as u16`, and
payload `record.data()?` (whose error aborts the whole handler). -/
def buildAnswers (records : List DnsRecord) (rand : Nat → Nat) :
    List Question → Nat → RRes (List Answer)
  | [], _ => .ok []
  | q :: qs, i =>
    if h : matchedRecords records q = [] then
      buildAnswers records rand qs i
    else
      match (selectedRecord records rand q i h).data with
      | none => .err DnsError.malformedAddress
      | some d =>
        match buildAnswers records rand qs (i + 1) with
        | .err e => .err e
        | .panicked => .panicked
        | .ok rest =>
          .ok ({ name := (selectedRecord records rand q i h).qname
               , qtype := (selectedRecord records rand q i h).qtype
               , qclass := (selectedRecord records rand q i h).qclass
               , ttl := 60
               , length := (selectedRecord records rand q i h).length % 65536
               , data := d } :: rest)

/-- The response-building part of `handle` in src/main.rs (after decoding and
before re-encoding): build answers, echo the questions, copy the inbound
header, then overwrite the answer count, zero authority/additional, set qr,
clear aa/tc/ra, and set the response code by comparing the (u16-truncated)
answer count with the inbound question-count field. -/
def handle (records : List DnsRecord) (rand : Nat → Nat) (query : DnsQuery) :
    RRes DnsQuery :=
  match buildAnswers records rand query.questions 0 with
  | .err e => .err e
  | .panicked => .panicked
  | .ok answers =>
    .ok { header := { id := query.header.id
                    , flags := { qr := true
                               , opcode := query.header.flags.opcode
                               , authorihative_answer := false
                               , truncate := false
                               , recursion_desired := query.header.flags.recursion_desired
                               , recursion_available := false
                               , response_code :=
                                   if answers.length % 65536 ≠ query.header.questions
                                   then 3 else 0 }
                    , questions := query.header.questions
                    , answers := answers.length % 65536
                    , authorities := 0
                    , additional := 0 }
        , questions := query.questions
        , answers := answers }

/-- A byte as eight bits, most significant first (for stating expected wire
images in the claims). -/
def byteToBits (b : Nat) : List Bool :=
  [b.testBit 7, b.testBit 6, b.testBit 5, b.testBit 4,
   b.testBit 3, b.testBit 2, b.testBit 1, b.testBit 0]

/-- A byte sequence as a bit sequence. -/
def bytesToBits (bs : List Nat) : List Bool := (bs.map byteToBits).flatten

/-- Claim-side notion for C6: `t` is the decimal notation of an octet `o`. -/
def isOctet (t : List Char) (o : Nat) : Prop :=
  t ≠ [] ∧ (∀ c ∈ t, c.isDigit) ∧ t.foldl (fun a c => a * 10 + (c.toNat - 48)) 0 = o ∧ o ≤ 255

/-- Concrete zone record used by the witnesses. -/
def recEx : DnsRecord :=
  { qname := "x", qclass := QClass.IN, qtype := QType.A, entry := "1.2.3.4" }

/-- Concrete CNAME record used by the C5 counterexample. -/
def cnameRec : DnsRecord :=
  { qname := "x", qclass := QClass.IN, qtype := QType.CNAME, entry := "abc" }

/-- Concrete question used by the witnesses. -/
def qEx : Question := { qname := "x", qtype := QType.A, qclass := QClass.IN }

/-- Concrete decoded query used by the witnesses. -/
def queryEx : DnsQuery :=
  { header := { id := 7
              , flags := { qr := false, opcode := 0, authorihative_answer := false,
                           truncate := false, recursion_desired := true,
                           recursion_available := false, response_code := 0 }
              , questions := 1, answers := 0, authorities := 0, additional := 0 }
  , questions := [qEx]
  , answers := [] }

/-- Constant random stream used by the witnesses. -/
def randEx : Nat → Nat := fun _ => 0

/-- The answer `handle` synthesizes for `qEx` against `[recEx]`. -/
def ansEx : Answer :=
  { name := "x", qtype := QType.A, qclass := QClass.IN, ttl := 60, length := 4,
    data := [1, 2, 3, 4] }

/-- The response `handle` produces for `queryEx` against `[recEx]`. -/
def respEx : DnsQuery :=
  { header := { id := 7
              , flags := { qr := true, opcode := 0, authorihative_answer := false,
                           truncate := false, recursion_desired := true,
                           recursion_available := false, response_code := 0 }
              , questions := 1, answers := 1, authorities := 0, additional := 0 }
  , questions := [qEx]
  , answers := [ansEx] }

/-- A zero-question message used by the C8 witness. -/
def query0Ex : DnsQuery :=
  { header := { queryEx.header with questions := 0 }, questions := [], answers := [] }

/-- A-record with a non-numeric octet, used by the C6 witness. -/
def badRec : DnsRecord :=
  { qname := "y", qclass := QClass.IN, qtype := QType.A, entry := "1.2.3.x" }

/-- Question matching `badRec`, used by the C6 witness. -/
def qBadEx : Question := { qname := "y", qtype := QType.A, qclass := QClass.IN }

/-- All-ones header used by the C3 witness. -/
def headerEx : DnsHeader :=
  { id := 65535
  , flags := { qr := true, opcode := 15, authorihative_answer := true, truncate := true,
               recursion_desired := true, recursion_available := true, response_code := 15 }
  , questions := 65535, answers := 65535, authorities := 65535, additional := 65535 }

/-! Lemmas about the bit cursor. -/

theorem writeBits_append (v : Nat) : ∀ (n : Nat) (a b : List Bool),
    writeBits v n (a ++ b) = a ++ writeBits v n b := by
  intro n
  induction n with
  | zero => intro a b; rfl
  | succ k ih =>
    intro a b
    show writeBits v k ((a ++ b) ++ [v.testBit k]) = a ++ writeBits v k (b ++ [v.testBit k])
    rw [List.append_assoc, ih]

theorem writeBits_eq (v n : Nat) (buf : List Bool) :
    writeBits v n buf = buf ++ bitsOf v n := by
  have h := writeBits_append v n buf []
  simpa [bitsOf] using h

theorem bitsOf_succ (v n : Nat) : bitsOf v (n + 1) = v.testBit n :: bitsOf v n := by
  show writeBits v n ([v.testBit n] ++ []) = v.testBit n :: bitsOf v n
  rw [writeBits_append]
  rfl

theorem readBitsAux_bitsOf (v : Nat) : ∀ (n acc : Nat) (rest : List Bool),
    readBitsAux acc n (bitsOf v n ++ rest) = some (acc * 2 ^ n + v % 2 ^ n, rest) := by
  intro n
  induction n with
  | zero => intro acc rest; simp [bitsOf, writeBits, readBitsAux, Nat.mod_one]
  | succ k ih =>
    intro acc rest
    rw [bitsOf_succ]
    show readBitsAux (acc * 2 + (v.testBit k).toNat) k (bitsOf v k ++ rest) = _
    rw [ih, Nat.toNat_testBit, Nat.pow_succ, Nat.mod_mul]
    congr 2
    ring

theorem readBits_bitsOf (v n : Nat) (rest : List Bool) :
    readBits n (bitsOf v n ++ rest) = some (v % 2 ^ n, rest) := by
  have h := readBitsAux_bitsOf v n 0 rest
  simpa [readBits] using h

theorem readBits_bitsOf_of_lt (v n : Nat) (h : v < 2 ^ n) (rest : List Bool) :
    readBits n (bitsOf v n ++ rest) = some (v, rest) := by
  rw [readBits_bitsOf, Nat.mod_eq_of_lt h]

theorem readBitsAux_append : ∀ (n acc v : Nat) (l r ex : List Bool),
    readBitsAux acc n l = some (v, r) → readBitsAux acc n (l ++ ex) = some (v, r ++ ex) := by
  intro n
  induction n with
  | zero =>
    intro acc v l r ex h
    simp only [readBitsAux, Option.some.injEq, Prod.mk.injEq] at h ⊢
    exact ⟨h.1, by rw [h.2]⟩
  | succ k ih =>
    intro acc v l r ex h
    cases l with
    | nil => simp [readBitsAux] at h
    | cons x xs =>
      simp only [readBitsAux, List.cons_append] at h ⊢
      exact ih _ _ _ _ _ h

theorem readBits_append (n v : Nat) (l r ex : List Bool)
    (h : readBits n l = some (v, r)) : readBits n (l ++ ex) = some (v, r ++ ex) :=
  readBitsAux_append n 0 v l r ex h

theorem read_bytes_append : ∀ (k : Nat) (l : List Bool) (bs : List Nat) (r ex : List Bool),
    read_bytes k l = some (bs, r) → read_bytes k (l ++ ex) = some (bs, r ++ ex) := by
  intro k
  induction k with
  | zero =>
    intro l bs r ex h
    simp only [read_bytes, Option.some.injEq, Prod.mk.injEq] at h ⊢
    exact ⟨h.1, by rw [h.2]⟩
  | succ j ih =>
    intro l bs r ex h
    simp only [read_bytes] at h
    split at h
    · exact absurd h (by simp)
    · rename_i b' rest' hx
      split at h
      · exact absurd h (by simp)
      · rename_i bs' rest2' hy
        cases h
        simp only [read_bytes, readBits_append 8 b' l rest' ex hx]
        rw [ih rest' bs' _ ex hy]

theorem readBit_append (l : List Bool) (b : Bool) (r ex : List Bool)
    (h : readBit l = some (b, r)) : readBit (l ++ ex) = some (b, r ++ ex) := by
  cases l with
  | nil => simp [readBit] at h
  | cons x xs =>
    simp only [readBit, List.cons_append, Option.some.injEq, Prod.mk.injEq] at h ⊢
    exact ⟨h.1, by rw [h.2]⟩

theorem readTokensF_mono : ∀ (f f' : Nat), f ≤ f' → ∀ (bits : List Bool)
    (ts : List String) (r : List Bool), readTokensF f bits = .ok (ts, r) →
    readTokensF f' bits = .ok (ts, r) := by
  intro f
  induction f with
  | zero => intro f' _ bits ts r h; simp [readTokensF] at h
  | succ k ih =>
    intro f' hle bits ts r h
    cases f' with
    | zero => omega
    | succ k' =>
      simp only [readTokensF] at h
      split at h
      · simp at h
      · rename_i b rest h1
        split at h
        · rename_i h2
          cases h
          simp only [readTokensF, h1, h2]
        · rename_i size h2
          split at h
          · simp at h
          · rename_i bytes rest2 h3
            split at h
            · simp at h
            · rename_i chars h4
              split at h
              · rename_i tokens rest3 h5
                cases h
                have h5m := ih k' (by omega) rest2 tokens _ h5
                simp only [readTokensF, h1, h2, h3, h4, h5m]
              · simp at h
              · simp at h

theorem readTokensF_append : ∀ (f : Nat) (bits : List Bool) (ts : List String)
    (r ex : List Bool), readTokensF f bits = .ok (ts, r) →
    readTokensF f (bits ++ ex) = .ok (ts, r ++ ex) := by
  intro f
  induction f with
  | zero => intro bits ts r ex h; simp [readTokensF] at h
  | succ k ih =>
    intro bits ts r ex h
    simp only [readTokensF] at h
    split at h
    · simp at h
    · rename_i b rest h1
      split at h
      · rename_i h2
        cases h
        simp only [readTokensF, readBits_append 8 b bits _ ex h1, h2]
      · rename_i size h2
        split at h
        · simp at h
        · rename_i bytes rest2 h3
          split at h
          · simp at h
          · rename_i chars h4
            split at h
            · rename_i tokens rest3 h5
              cases h
              have h5a := ih rest2 tokens _ ex h5
              simp only [readTokensF, readBits_append 8 b bits rest ex h1, h2,
                read_bytes_append size rest bytes rest2 ex h3, h4, h5a]
            · simp at h
            · simp at h

theorem readTokens_append (bits : List Bool) (ts : List String) (r ex : List Bool)
    (h : readTokens bits = .ok (ts, r)) :
    readTokens (bits ++ ex) = .ok (ts, r ++ ex) := by
  unfold readTokens at h ⊢
  exact readTokensF_mono (bits.length + 1) ((bits ++ ex).length + 1)
    (by simp) (bits ++ ex) ts (r ++ ex)
    (readTokensF_append (bits.length + 1) bits ts r ex h)

theorem question_read_append (bits : List Bool) (q : Question) (r ex : List Bool)
    (h : Question.read_buf bits = .ok (q, r)) :
    Question.read_buf (bits ++ ex) = .ok (q, r ++ ex) := by
  unfold Question.read_buf at h ⊢
  split at h
  · simp at h
  · simp at h
  · rename_i tokens rest ht
    split at h
    · simp at h
    · rename_i t r1 h16
      split at h
      · simp at h
      · rename_i qt hqt
        split at h
        · simp at h
        · rename_i c r2 h16b
          split at h
          · simp at h
          · rename_i qc hqc
            cases h
            simp only [readTokens_append bits tokens rest ex ht,
              readBits_append 16 t rest r1 ex h16, hqt,
              readBits_append 16 c r1 _ ex h16b, hqc]

theorem readQuestions_append : ∀ (n : Nat) (bits : List Bool) (qs : List Question)
    (r ex : List Bool), readQuestions n bits = .ok (qs, r) →
    readQuestions n (bits ++ ex) = .ok (qs, r ++ ex) := by
  intro n
  induction n with
  | zero =>
    intro bits qs r ex h
    simp only [readQuestions, RRes.ok.injEq, Prod.mk.injEq] at h ⊢
    exact ⟨h.1, by rw [h.2]⟩
  | succ k ih =>
    intro bits qs r ex h
    simp only [readQuestions] at h ⊢
    split at h
    · simp at h
    · simp at h
    · rename_i q rest hq
      split at h
      · simp at h
      · simp at h
      · rename_i qs2 rest2 hqs
        cases h
        simp only [question_read_append bits q rest ex hq, ih rest qs2 _ ex hqs]

theorem readQuestions_length : ∀ (n : Nat) (bits : List Bool) (qs : List Question)
    (r : List Bool), readQuestions n bits = .ok (qs, r) → qs.length = n := by
  intro n
  induction n with
  | zero =>
    intro bits qs r h
    simp only [readQuestions, RRes.ok.injEq, Prod.mk.injEq] at h
    obtain ⟨h1, _⟩ := h
    subst h1
    rfl
  | succ k ih =>
    intro bits qs r h
    simp only [readQuestions] at h
    split at h
    · simp at h
    · simp at h
    · rename_i q rest hq
      split at h
      · simp at h
      · simp at h
      · rename_i qs2 rest2 hqs
        cases h
        have hlen := ih rest qs2 _ hqs
        simp only [List.length_cons, hlen]

theorem flags_read_append (bits : List Bool) (f : Flags) (r ex : List Bool)
    (h : Flags.read_buf bits = .ok (f, r)) :
    Flags.read_buf (bits ++ ex) = .ok (f, r ++ ex) := by
  unfold Flags.read_buf at h ⊢
  split at h
  · simp at h
  · rename_i qr r1 h1
    split at h
    · simp at h
    · rename_i op r2 h2
      split at h
      · simp at h
      · rename_i aa r3 h3
        split at h
        · simp at h
        · rename_i tc r4 h4
          split at h
          · simp at h
          · rename_i rd r5 h5
            split at h
            · simp at h
            · rename_i ra r6 h6
              split at h
              · simp at h
              · rename_i z r7 h7
                split at h
                · simp at h
                · rename_i rc r8 h8
                  cases h
                  simp only [readBit_append bits qr r1 ex h1,
                    readBitsAux_append 4 0 op r1 r2 ex h2,
                    readBit_append r2 aa r3 ex h3, readBit_append r3 tc r4 ex h4,
                    readBit_append r4 rd r5 ex h5, readBit_append r5 ra r6 ex h6,
                    readBitsAux_append 3 0 z r6 r7 ex h7,
                    readBitsAux_append 4 0 rc r7 _ ex h8, readBits]

theorem header_read_append (bits : List Bool) (hd : DnsHeader) (r ex : List Bool)
    (h : DnsHeader.read_buf bits = .ok (hd, r)) :
    DnsHeader.read_buf (bits ++ ex) = .ok (hd, r ++ ex) := by
  unfold DnsHeader.read_buf at h ⊢
  split at h
  · simp at h
  · rename_i i r1 h1
    split at h
    · simp at h
    · simp at h
    · rename_i fl r2 h2
      split at h
      · simp at h
      · rename_i qd r3 h3
        split at h
        · simp at h
        · rename_i an r4 h4
          split at h
          · simp at h
          · rename_i ns r5 h5
            split at h
            · simp at h
            · rename_i ar r6 h6
              cases h
              simp only [readBits_append 16 i bits r1 ex h1,
                flags_read_append r1 fl r2 ex h2,
                readBits_append 16 qd r2 r3 ex h3, readBits_append 16 an r3 r4 ex h4,
                readBits_append 16 ns r4 r5 ex h5, readBits_append 16 ar r5 _ ex h6]

theorem DnsQuery.from_buffer_append (bits : List Bool) (q : DnsQuery) (ex : List Bool)
    (h : DnsQuery.from_buffer bits = .ok q) :
    DnsQuery.from_buffer (bits ++ ex) = .ok q := by
  unfold DnsQuery.from_buffer at h ⊢
  split at h
  · simp at h
  · simp at h
  · rename_i hd rest hh
    split at h
    · simp at h
    · simp at h
    · rename_i qs rest2 hqs
      cases h
      simp only [header_read_append bits hd rest ex hh,
        readQuestions_append hd.questions rest qs rest2 ex hqs]

theorem DnsQuery.from_buffer_shape (bits : List Bool) (q : DnsQuery)
    (h : DnsQuery.from_buffer bits = .ok q) :
    q.answers = [] ∧ q.questions.length = q.header.questions := by
  unfold DnsQuery.from_buffer at h
  split at h
  · simp at h
  · simp at h
  · rename_i hd rest hh
    split at h
    · simp at h
    · simp at h
    · rename_i qs rest2 hqs
      cases h
      exact ⟨rfl, readQuestions_length hd.questions rest qs rest2 hqs⟩

theorem readBitsAux_lt : ∀ (n acc v : Nat) (l r : List Bool),
    readBitsAux acc n l = some (v, r) → v < (acc + 1) * 2 ^ n := by
  intro n
  induction n with
  | zero =>
    intro acc v l r h
    simp only [readBitsAux, Option.some.injEq, Prod.mk.injEq] at h
    rw [← h.1]
    simp
  | succ k ih =>
    intro acc v l r h
    cases l with
    | nil => simp [readBitsAux] at h
    | cons b bs =>
      simp only [readBitsAux] at h
      have hlt := ih (acc * 2 + b.toNat) v bs r h
      have hb : b.toNat ≤ 1 := by cases b <;> simp
      calc v < (acc * 2 + b.toNat + 1) * 2 ^ k := hlt
        _ ≤ ((acc + 1) * 2) * 2 ^ k := Nat.mul_le_mul_right _ (by omega)
        _ = (acc + 1) * 2 ^ (k + 1) := by ring

theorem DnsHeader.read_buf_questions_lt (bits : List Bool) (hd : DnsHeader)
    (r : List Bool) (h : DnsHeader.read_buf bits = .ok (hd, r)) :
    hd.questions < 2 ^ 16 := by
  unfold DnsHeader.read_buf at h
  split at h
  · simp at h
  · rename_i i r1 h1
    split at h
    · simp at h
    · simp at h
    · rename_i fl r2 h2
      split at h
      · simp at h
      · rename_i qd r3 h3
        split at h
        · simp at h
        · rename_i an r4 h4
          split at h
          · simp at h
          · rename_i ns r5 h5
            split at h
            · simp at h
            · rename_i ar r6 h6
              cases h
              have := readBitsAux_lt 16 0 qd r2 r3 h3
              simpa using this

theorem DnsQuery.from_buffer_questions_lt (bits : List Bool) (q : DnsQuery)
    (h : DnsQuery.from_buffer bits = .ok q) : q.header.questions < 2 ^ 16 := by
  unfold DnsQuery.from_buffer at h
  split at h
  · simp at h
  · simp at h
  · rename_i hd rest hh
    split at h
    · simp at h
    · simp at h
    · rename_i qs rest2 hqs
      cases h
      exact DnsHeader.read_buf_questions_lt bits hd rest hh

/-! Lemmas about the writers: every writer only appends to the buffer. -/

theorem charFoldl_append (t : List Char) : ∀ (a b : List Bool),
    t.foldl (fun b2 c => writeBits (c.toNat % 256) 8 b2) (a ++ b)
      = a ++ t.foldl (fun b2 c => writeBits (c.toNat % 256) 8 b2) b := by
  induction t with
  | nil => intro a b; rfl
  | cons c cs ih =>
    intro a b
    simp only [List.foldl_cons]
    rw [writeBits_append, ih]

theorem tokensFoldl_append (ts : List (List Char)) : ∀ (a b : List Bool),
    ts.foldl (fun bu t =>
        t.foldl (fun b2 c => writeBits (c.toNat % 256) 8 b2)
          (writeBits (strByteLen t % 256) 8 bu)) (a ++ b)
      = a ++ ts.foldl (fun bu t =>
          t.foldl (fun b2 c => writeBits (c.toNat % 256) 8 b2)
            (writeBits (strByteLen t % 256) 8 bu)) b := by
  induction ts with
  | nil => intro a b; rfl
  | cons t ts ih =>
    intro a b
    simp only [List.foldl_cons]
    rw [writeBits_append, charFoldl_append, ih]

theorem writeName_append (s : String) (a b : List Bool) :
    writeName s (a ++ b) = a ++ writeName s b := by
  unfold writeName
  rw [tokensFoldl_append, writeBits_append]

theorem flags_write_append (f : Flags) (a b : List Bool) :
    Flags.write_buf f (a ++ b) = a ++ Flags.write_buf f b := by
  simp only [Flags.write_buf, writeBit, writeBits_eq, List.append_assoc]

theorem header_write_append (h : DnsHeader) (a b : List Bool) :
    DnsHeader.write_buf h (a ++ b) = a ++ DnsHeader.write_buf h b := by
  simp only [DnsHeader.write_buf, writeBits_eq, List.append_assoc]
  rw [flags_write_append, flags_write_append]
  simp only [List.append_assoc]

theorem question_write_append (q : Question) (a b : List Bool) :
    Question.write_buf q (a ++ b) = a ++ Question.write_buf q b := by
  simp only [Question.write_buf, writeBits_eq, writeName_append, List.append_assoc]

theorem dataFoldl_append (ds : List Nat) : ∀ (a b : List Bool),
    ds.foldl (fun bu c => writeBits c 8 bu) (a ++ b)
      = a ++ ds.foldl (fun bu c => writeBits c 8 bu) b := by
  induction ds with
  | nil => intro a b; rfl
  | cons d ds ih =>
    intro a b
    simp only [List.foldl_cons]
    rw [writeBits_append, ih]

theorem answer_write_append (an : Answer) (a b : List Bool) :
    Answer.write_buf an (a ++ b) = a ++ Answer.write_buf an b := by
  unfold Answer.write_buf
  have hin : writeBits an.length 16 (writeBits an.ttl 32
        (writeBits (QClass.to_u16 an.qclass) 16
          (writeBits (QType.to_u16 an.qtype) 16 (writeName an.name (a ++ b)))))
      = a ++ writeBits an.length 16 (writeBits an.ttl 32
          (writeBits (QClass.to_u16 an.qclass) 16
            (writeBits (QType.to_u16 an.qtype) 16 (writeName an.name b)))) := by
    simp only [writeName_append, writeBits_eq, List.append_assoc]
  rw [hin, dataFoldl_append]

theorem questionsFoldl_flatten (qs : List Question) : ∀ (buf : List Bool),
    qs.foldl (fun b x => Question.write_buf x b) buf
      = buf ++ (qs.map (fun x => Question.write_buf x [])).flatten := by
  induction qs with
  | nil => intro buf; simp
  | cons q qs ih =>
    intro buf
    simp only [List.foldl_cons, List.map_cons, List.flatten_cons]
    have h1 : Question.write_buf q buf = buf ++ Question.write_buf q [] := by
      simpa using question_write_append q buf []
    rw [h1, ih, List.append_assoc]

theorem answersFoldl_flatten (ans : List Answer) : ∀ (buf : List Bool),
    ans.foldl (fun b a => Answer.write_buf a b) buf
      = buf ++ (ans.map (fun a => Answer.write_buf a [])).flatten := by
  induction ans with
  | nil => intro buf; simp
  | cons a ans ih =>
    intro buf
    simp only [List.foldl_cons, List.map_cons, List.flatten_cons]
    have h1 : Answer.write_buf a buf = buf ++ Answer.write_buf a [] := by
      simpa using answer_write_append a buf []
    rw [h1, ih, List.append_assoc]

/-! Roundtrip of the header codec. -/

theorem flags_roundtrip (f : Flags) (hop : f.opcode < 2 ^ 4)
    (hrc : f.response_code < 2 ^ 4) (rest : List Bool) :
    Flags.read_buf (Flags.write_buf f [] ++ rest) = .ok (f, rest) := by
  unfold Flags.read_buf
  simp only [Flags.write_buf, writeBit, writeBits_eq, List.append_assoc,
    List.nil_append, List.cons_append, List.singleton_append, readBit,
    readBits_bitsOf, Nat.mod_eq_of_lt hop, Nat.mod_eq_of_lt hrc]

theorem header_roundtrip_rest (h : DnsHeader) (hid : h.id < 2 ^ 16)
    (hq : h.questions < 2 ^ 16) (han : h.answers < 2 ^ 16)
    (hns : h.authorities < 2 ^ 16) (har : h.additional < 2 ^ 16)
    (hop : h.flags.opcode < 2 ^ 4) (hrc : h.flags.response_code < 2 ^ 4)
    (rest : List Bool) :
    DnsHeader.read_buf (DnsHeader.write_buf h [] ++ rest) = .ok (h, rest) := by
  have hw : DnsHeader.write_buf h [] ++ rest
      = bitsOf h.id 16 ++ (Flags.write_buf h.flags []
        ++ (bitsOf h.questions 16 ++ (bitsOf h.answers 16
          ++ (bitsOf h.authorities 16 ++ (bitsOf h.additional 16 ++ rest))))) := by
    have hfl : Flags.write_buf h.flags (bitsOf h.id 16)
        = bitsOf h.id 16 ++ Flags.write_buf h.flags [] := by
      simpa using flags_write_append h.flags (bitsOf h.id 16) []
    simp only [DnsHeader.write_buf, writeBits_eq, List.append_assoc,
      List.nil_append, hfl]
  rw [DnsHeader.read_buf, hw]
  simp only [readBits_bitsOf, Nat.mod_eq_of_lt hid, Nat.mod_eq_of_lt hq,
    Nat.mod_eq_of_lt han, Nat.mod_eq_of_lt hns, Nat.mod_eq_of_lt har,
    flags_roundtrip h.flags hop hrc]

/-! Lemmas about the resolver. -/

theorem matchedRecords_eq_filter (records : List DnsRecord) (q : Question) :
    matchedRecords records q = records.filter
      (fun r => decide (r.qtype = q.qtype ∧ r.qclass = q.qclass ∧ r.qname = q.qname)) := by
  rw [matchedRecords, List.filter_filter, List.filter_filter]
  apply List.filter_congr
  intro r _
  by_cases h1 : r.qtype = q.qtype <;> by_cases h2 : r.qclass = q.qclass <;>
    by_cases h3 : r.qname = q.qname <;> simp [h1, h2, h3]

theorem selectedRecord_mem (records : List DnsRecord) (rand : Nat → Nat)
    (q : Question) (i : Nat) (h : matchedRecords records q ≠ []) :
    selectedRecord records rand q i h ∈ matchedRecords records q :=
  List.get_mem _ _ _

theorem buildAnswers_nil (records : List DnsRecord) (rand : Nat → Nat) (i : Nat) :
    buildAnswers records rand [] i = .ok [] := rfl

theorem buildAnswers_skip (records : List DnsRecord) (rand : Nat → Nat)
    (q : Question) (qs : List Question) (i : Nat) (h : matchedRecords records q = []) :
    buildAnswers records rand (q :: qs) i = buildAnswers records rand qs i := by
  rw [buildAnswers, dif_pos h]

theorem buildAnswers_cons (records : List DnsRecord) (rand : Nat → Nat)
    (q : Question) (qs : List Question) (i : Nat) (answers : List Answer)
    (hne : matchedRecords records q ≠ [])
    (h : buildAnswers records rand (q :: qs) i = .ok answers) :
    ∃ rec d rest, rec ∈ matchedRecords records q ∧ rec.data = some d ∧
      buildAnswers records rand qs (i + 1) = .ok rest ∧
      answers = { name := rec.qname, qtype := rec.qtype, qclass := rec.qclass,
                  ttl := 60, length := rec.length % 65536, data := d } :: rest := by
  rw [buildAnswers, dif_neg hne] at h
  split at h
  · simp at h
  · rename_i d hdata
    split at h
    · simp at h
    · simp at h
    · rename_i rest hrest
      simp only [RRes.ok.injEq] at h
      exact ⟨selectedRecord records rand q i hne, d, rest,
        selectedRecord_mem records rand q i hne, hdata, hrest, h.symm⟩

theorem buildAnswers_malformed (records : List DnsRecord) (rand : Nat → Nat)
    (q : Question) (qs : List Question) (i : Nat)
    (hne : matchedRecords records q ≠ [])
    (hall : ∀ rec ∈ matchedRecords records q, rec.data = none) :
    buildAnswers records rand (q :: qs) i = .err DnsError.malformedAddress := by
  rw [buildAnswers, dif_neg hne]
  rw [hall _ (selectedRecord_mem records rand q i hne)]

theorem buildAnswers_length_le (records : List DnsRecord) (rand : Nat → Nat) :
    ∀ (qs : List Question) (i : Nat) (answers : List Answer),
      buildAnswers records rand qs i = .ok answers → answers.length ≤ qs.length := by
  intro qs
  induction qs with
  | nil =>
    intro i answers h
    simp only [buildAnswers, RRes.ok.injEq] at h
    simp [← h]
  | cons q qs ih =>
    intro i answers h
    by_cases hm : matchedRecords records q = []
    · have := ih i answers (by rw [← buildAnswers_skip records rand q qs i hm]; exact h)
      simp only [List.length_cons]
      omega
    · obtain ⟨rec, d, rest, _, _, hrest, hans⟩ :=
        buildAnswers_cons records rand q qs i answers hm h
      have := ih (i + 1) rest hrest
      subst hans
      simp only [List.length_cons]
      omega

/-! Lemmas about dot-splitting and octet parsing. -/

theorem splitDot_no_dot : ∀ (l : List Char), '.' ∉ l → splitDot l = [l] := by
  intro l
  induction l with
  | nil => intro _; rfl
  | cons c cs ih =>
    intro h
    have hc : ¬(c = '.') := by
      intro hc
      exact h (by rw [hc]; exact List.mem_cons_self _ _)
    have hcs : '.' ∉ cs := fun hm => h (List.mem_cons_of_mem _ hm)
    simp only [splitDot, if_neg hc, ih hcs]

theorem strByteLen_ascii : ∀ (l : List Char), (∀ c ∈ l, c.toNat < 128) →
    strByteLen l = l.length := by
  intro l
  induction l with
  | nil => intro _; rfl
  | cons c cs ih =>
    intro h
    have hc : charUtf8Len c = 1 := by
      unfold charUtf8Len
      rw [if_pos (h c (List.mem_cons_self _ _))]
    simp only [strByteLen, List.map_cons, List.sum_cons, hc] at ih ⊢
    rw [ih (fun x hx => h x (List.mem_cons_of_mem _ hx))]
    simp only [List.length_cons]
    omega

theorem digitsFold_ge : ∀ (t : List Char) (acc : Nat),
    acc ≤ t.foldl (fun a c => a * 10 + (c.toNat - 48)) acc := by
  intro t
  induction t with
  | nil => intro acc; exact Nat.le_refl acc
  | cons c cs ih =>
    intro acc
    simp only [List.foldl_cons]
    calc acc ≤ acc * 10 + (c.toNat - 48) := by omega
      _ ≤ cs.foldl (fun a c => a * 10 + (c.toNat - 48)) (acc * 10 + (c.toNat - 48)) :=
        ih (acc * 10 + (c.toNat - 48))

theorem parseDigits_ok : ∀ (t : List Char) (acc : Nat), (∀ c ∈ t, c.isDigit) →
    t.foldl (fun a c => a * 10 + (c.toNat - 48)) acc ≤ 255 →
    parseDigits t acc = some (t.foldl (fun a c => a * 10 + (c.toNat - 48)) acc) := by
  intro t
  induction t with
  | nil => intro acc _ _; rfl
  | cons c cs ih =>
    intro acc hd hle
    simp only [List.foldl_cons] at hle ⊢
    have hc : c.isDigit := hd c (List.mem_cons_self _ _)
    have hstep : acc * 10 + (c.toNat - 48)
        ≤ cs.foldl (fun a c => a * 10 + (c.toNat - 48)) (acc * 10 + (c.toNat - 48)) :=
      digitsFold_ge cs _
    simp only [parseDigits, hc, if_true]
    rw [if_neg (by omega)]
    exact ih _ (fun x hx => hd x (List.mem_cons_of_mem _ hx)) hle

theorem parseU8_ok (t : List Char) (hne : t ≠ []) (hd : ∀ c ∈ t, c.isDigit)
    (hle : t.foldl (fun a c => a * 10 + (c.toNat - 48)) 0 ≤ 255) :
    parseU8 t = some (t.foldl (fun a c => a * 10 + (c.toNat - 48)) 0) := by
  cases t with
  | nil => exact absurd rfl hne
  | cons c cs =>
    have hc : c.isDigit := hd c (List.mem_cons_self _ _)
    have hcp : ¬(c = '+') := by
      intro hcp
      rw [hcp] at hc
      exact absurd hc (by decide)
    rw [show parseU8 (c :: cs) = parseDigits (c :: cs) 0 from by
      unfold parseU8
      split
      · rename_i heq; cases heq
      · rename_i rest heq
        injection heq with h1 _
        exact absurd h1 hcp
      · rfl]
    exact parseDigits_ok (c :: cs) 0 hd hle

theorem parseOctets_none : ∀ (ts : List (List Char)), (∃ t ∈ ts, parseU8 t = none) →
    parseOctets ts = none := by
  intro ts
  induction ts with
  | nil => intro h; obtain ⟨t, ht, _⟩ := h; cases ht
  | cons t ts ih =>
    intro h
    obtain ⟨t2, ht2, hn⟩ := h
    rcases List.mem_cons.mp ht2 with heq | hmem
    · subst heq
      simp only [parseOctets, hn]
    · simp only [parseOctets]
      rw [ih ⟨t2, hmem, hn⟩]
      split <;> rfl

/-! The claims. -/

/-- Claim C1: for every question processed by the resolver, the loaded record
set is filtered by exact equality of type, class, and name (String and
variant equality, hence case-sensitive, with no wildcard or suffix matching);
an empty filtered set produces no answer for that question, and a non-empty
one produces exactly one answer whose record is a member of the filtered set,
with ttl 60 and payload equal to that record's `data()`. -/
theorem c1_resolver_filter_and_answer :
    (∀ (records : List DnsRecord) (q : Question),
       matchedRecords records q = records.filter
         (fun r => decide (r.qtype = q.qtype ∧ r.qclass = q.qclass ∧ r.qname = q.qname)))
    ∧ (∀ (records : List DnsRecord) (rand : Nat → Nat) (i : Nat),
        buildAnswers records rand [] i = .ok [])
    ∧ (∀ (records : List DnsRecord) (rand : Nat → Nat) (q : Question)
        (qs : List Question) (i : Nat), matchedRecords records q = [] →
        buildAnswers records rand (q :: qs) i = buildAnswers records rand qs i)
    ∧ (∀ (records : List DnsRecord) (rand : Nat → Nat) (q : Question)
        (qs : List Question) (i : Nat) (answers : List Answer),
        matchedRecords records q ≠ [] →
        buildAnswers records rand (q :: qs) i = .ok answers →
        ∃ rec d rest, rec ∈ matchedRecords records q ∧ rec.data = some d ∧
          buildAnswers records rand qs (i + 1) = .ok rest ∧
          answers = { name := rec.qname, qtype := rec.qtype, qclass := rec.qclass,
                      ttl := 60, length := rec.length % 65536, data := d } :: rest) :=
  ⟨matchedRecords_eq_filter, buildAnswers_nil, buildAnswers_skip, buildAnswers_cons⟩

/-- Witness for C1: a concrete unmatched question is skipped, and a concrete
matched question yields exactly the expected single answer. -/
theorem c1_resolver_filter_and_answer_witness :
    (buildAnswers [] randEx [qEx] 0 = buildAnswers [] randEx [] 0)
    ∧ (∃ rec d rest, rec ∈ matchedRecords [recEx] qEx ∧ rec.data = some d ∧
        buildAnswers [recEx] randEx [] 1 = .ok rest ∧
        [ansEx] = { name := rec.qname, qtype := rec.qtype, qclass := rec.qclass,
                    ttl := 60, length := rec.length % 65536, data := d } :: rest) :=
  ⟨c1_resolver_filter_and_answer.2.2.1 [] randEx qEx [] 0 (by decide),
   c1_resolver_filter_and_answer.2.2.2 [recEx] randEx qEx [] 0 [ansEx]
     (by decide) (by decide)⟩

/-- Claim C2: for every handled query (one obtained by decoding an inbound
buffer), the response code is NOERROR(0) exactly when the number of
synthesized answers equals the number of input questions, and NameError(3)
otherwise; the header answer count is the number of synthesized answers. -/
theorem c2_response_code (records : List DnsRecord) (rand : Nat → Nat)
    (bits : List Bool) (query resp : DnsQuery)
    (hdec : DnsQuery.from_buffer bits = .ok query)
    (h : handle records rand query = .ok resp) :
    resp.header.answers = resp.answers.length
    ∧ resp.header.flags.response_code
        = if resp.answers.length = query.questions.length then 0 else 3 := by
  have hq : query.questions.length = query.header.questions :=
    (DnsQuery.from_buffer_shape bits query hdec).2
  have hlt : query.header.questions < 2 ^ 16 :=
    DnsQuery.from_buffer_questions_lt bits query hdec
  rw [handle] at h
  split at h
  · simp at h
  · simp at h
  · rename_i answers hb
    have hle : answers.length ≤ query.questions.length :=
      buildAnswers_length_le records rand query.questions 0 answers hb
    have h16 : (2 : Nat) ^ 16 = 65536 := by norm_num
    have hmod : answers.length % 65536 = answers.length :=
      Nat.mod_eq_of_lt (by omega)
    cases h
    refine ⟨hmod, ?_⟩
    show (if answers.length % 65536 ≠ query.header.questions then 3 else 0) = _
    rw [hmod, ← hq]
    by_cases he : answers.length = query.questions.length <;> simp [he]

/-- Witness for C2: the concrete one-question, one-match exchange. -/
theorem c2_response_code_witness :
    respEx.header.answers = respEx.answers.length
    ∧ respEx.header.flags.response_code
        = if respEx.answers.length = queryEx.questions.length then 0 else 3 :=
  c2_response_code [recEx] randEx (DnsQuery.write_buf queryEx []) queryEx respEx
    (by decide) (by decide)

/-- Claim C10: for every successfully handled query, the response preserves
the query's id, opcode, and recursion-desired flag, echoes the decoded
questions, sets qr, and clears authoritative-answer, truncate,
recursion-available, and the authority and additional counts. -/
theorem c10_response_frame (records : List DnsRecord) (rand : Nat → Nat)
    (query resp : DnsQuery) (h : handle records rand query = .ok resp) :
    resp.header.id = query.header.id
    ∧ resp.header.flags.opcode = query.header.flags.opcode
    ∧ resp.header.flags.recursion_desired = query.header.flags.recursion_desired
    ∧ resp.questions = query.questions
    ∧ resp.header.flags.qr = true
    ∧ resp.header.flags.authorihative_answer = false
    ∧ resp.header.flags.truncate = false
    ∧ resp.header.flags.recursion_available = false
    ∧ resp.header.authorities = 0
    ∧ resp.header.additional = 0 := by
  rw [handle] at h
  split at h
  · simp at h
  · simp at h
  · cases h
    exact ⟨rfl, rfl, rfl, rfl, rfl, rfl, rfl, rfl, rfl, rfl⟩

/-- Witness for C10: the concrete exchange preserves and clears the frame
fields as stated. -/
theorem c10_response_frame_witness :
    respEx.header.id = queryEx.header.id
    ∧ respEx.header.flags.opcode = queryEx.header.flags.opcode
    ∧ respEx.header.flags.recursion_desired = queryEx.header.flags.recursion_desired
    ∧ respEx.questions = queryEx.questions
    ∧ respEx.header.flags.qr = true
    ∧ respEx.header.flags.authorihative_answer = false
    ∧ respEx.header.flags.truncate = false
    ∧ respEx.header.flags.recursion_available = false
    ∧ respEx.header.authorities = 0
    ∧ respEx.header.additional = 0 :=
  c10_response_frame [recEx] randEx queryEx respEx (by decide)

/-- Claim C6: for every A-type record whose text value is exactly four
dot-separated decimal octets, `data()` is exactly those four bytes and
`length()` is 4; a non-numeric or out-of-range octet makes `data()` fail
(the parse error the spec calls MalformedAddress), and a question whose
matches all carry such a value produces no answer (the handler loop stops
with that error). -/
theorem c6_a_record_payload :
    (∀ r : DnsRecord, r.qtype = QType.A → r.length = 4)
    ∧ (∀ (r : DnsRecord), r.qtype = QType.A →
        ∀ (t1 t2 t3 t4 : List Char) (o1 o2 o3 o4 : Nat),
        splitDot r.entry.data = [t1, t2, t3, t4] →
        isOctet t1 o1 → isOctet t2 o2 → isOctet t3 o3 → isOctet t4 o4 →
        r.data = some [o1, o2, o3, o4])
    ∧ (∀ (r : DnsRecord), r.qtype = QType.A →
        (∃ t ∈ splitDot r.entry.data, parseU8 t = none) → r.data = none)
    ∧ (∀ (records : List DnsRecord) (rand : Nat → Nat) (q : Question)
        (qs : List Question) (i : Nat), matchedRecords records q ≠ [] →
        (∀ rec ∈ matchedRecords records q, rec.data = none) →
        buildAnswers records rand (q :: qs) i = .err DnsError.malformedAddress) := by
  refine ⟨?_, ?_, ?_, buildAnswers_malformed⟩
  · intro r hA
    rw [DnsRecord.length, if_pos hA]
  · intro r hA t1 t2 t3 t4 o1 o2 o3 o4 hs h1 h2 h3 h4
    obtain ⟨hne1, hd1, hv1, hle1⟩ := h1
    obtain ⟨hne2, hd2, hv2, hle2⟩ := h2
    obtain ⟨hne3, hd3, hv3, hle3⟩ := h3
    obtain ⟨hne4, hd4, hv4, hle4⟩ := h4
    have p1 : parseU8 t1 = some o1 := by
      rw [parseU8_ok t1 hne1 hd1 (by rw [hv1]; exact hle1), hv1]
    have p2 : parseU8 t2 = some o2 := by
      rw [parseU8_ok t2 hne2 hd2 (by rw [hv2]; exact hle2), hv2]
    have p3 : parseU8 t3 = some o3 := by
      rw [parseU8_ok t3 hne3 hd3 (by rw [hv3]; exact hle3), hv3]
    have p4 : parseU8 t4 = some o4 := by
      rw [parseU8_ok t4 hne4 hd4 (by rw [hv4]; exact hle4), hv4]
    rw [DnsRecord.data, if_pos hA, hs]
    simp only [parseOctets, p1, p2, p3, p4]
  · intro r hA hex
    rw [DnsRecord.data, if_pos hA]
    exact parseOctets_none _ hex

/-- Witness for C6: the concrete record "1.2.3.4" resolves to [1,2,3,4] with
length 4, and a store whose only match has the value "1.2.3.x" makes the
handler fail with the malformed-address error. -/
theorem c6_a_record_payload_witness :
    recEx.length = 4
    ∧ recEx.data = some [1, 2, 3, 4]
    ∧ buildAnswers [badRec] randEx [qBadEx] 0 = .err DnsError.malformedAddress :=
  ⟨c6_a_record_payload.1 recEx (by decide),
   c6_a_record_payload.2.1 recEx (by decide) ['1'] ['2'] ['3'] ['4'] 1 2 3 4
     (by decide)
     (by exact ⟨by decide, by decide, by decide, by decide⟩)
     (by exact ⟨by decide, by decide, by decide, by decide⟩)
     (by exact ⟨by decide, by decide, by decide, by decide⟩)
     (by exact ⟨by decide, by decide, by decide, by decide⟩),
   c6_a_record_payload.2.2.2 [badRec] randEx qBadEx [] 0 (by decide) (by decide)⟩

/-- Claim C5, counterexample: for the non-A record with the dot-free value
"abc", the declared length is 4 while the encoded payload is the five bytes
[3,'a','b','c',0]; the declared length does not equal the payload byte count
even for a single-label value. -/
theorem c5_counterexample_single_label :
    cnameRec.qtype = QType.CNAME
    ∧ cnameRec.entry = "abc"
    ∧ cnameRec.entry.data.contains '.' = false
    ∧ cnameRec.length = 4
    ∧ cnameRec.data = some [3, 97, 98, 99, 0]
    ∧ (cnameRec.data.getD []).length = cnameRec.length + 1 := by decide

/-- Claim C5 as amended: for every non-A record the declared payload length
is the text byte length plus 1, and for a dot-free text value the encoded
payload data() has the character count plus 2 bytes — for a dot-free ASCII
value, exactly the declared length plus one (one more than declared, never
equal). -/
theorem c5_nonA_declared_length (r : DnsRecord) (h : r.qtype ≠ QType.A) :
    r.length = strByteLen r.entry.data + 1
    ∧ ('.' ∉ r.entry.data →
        ∃ d, r.data = some d ∧ d.length = r.entry.data.length + 2)
    ∧ (('.' ∉ r.entry.data ∧ ∀ c ∈ r.entry.data, c.toNat < 128) →
        ∃ d, r.data = some d ∧ d.length = r.length + 1) := by
  refine ⟨by rw [DnsRecord.length, if_neg h], ?_, ?_⟩
  · intro hnd
    rw [DnsRecord.data, if_neg h, splitDot_no_dot _ hnd]
    refine ⟨_, rfl, ?_⟩
    simp only [List.foldl_cons, List.foldl_nil, List.nil_append,
      List.length_append, List.length_cons, List.length_map]
    simp
    omega
  · intro hor
    obtain ⟨hnd, hascii⟩ := hor
    rw [DnsRecord.data, if_neg h, splitDot_no_dot _ hnd]
    refine ⟨_, rfl, ?_⟩
    rw [DnsRecord.length, if_neg h, strByteLen_ascii _ hascii]
    simp only [List.foldl_cons, List.foldl_nil, List.nil_append,
      List.length_append, List.length_cons, List.length_map]
    simp
    omega

/-- Witness for C5 (amended): the concrete dot-free record "abc" has a
payload one byte longer than its char count plus one. -/
theorem c5_nonA_declared_length_witness :
    ∃ d, cnameRec.data = some d ∧ d.length = cnameRec.entry.data.length + 2 :=
  (c5_nonA_declared_length cnameRec (by decide)).2.1 (by decide)

/-- Claim C3: for every header whose u16 fields are in range and whose opcode
and response code fit in four bits, decoding the encoding yields the header
back, every flag bit and count included. -/
theorem c3_header_roundtrip (h : DnsHeader) (hid : h.id < 2 ^ 16)
    (hq : h.questions < 2 ^ 16) (han : h.answers < 2 ^ 16)
    (hns : h.authorities < 2 ^ 16) (har : h.additional < 2 ^ 16)
    (hop : h.flags.opcode < 2 ^ 4) (hrc : h.flags.response_code < 2 ^ 4) :
    DnsHeader.read_buf (DnsHeader.write_buf h []) = .ok (h, []) := by
  have hr := header_roundtrip_rest h hid hq han hns har hop hrc []
  simpa using hr

/-- Witness for C3: the all-ones header round-trips. -/
theorem c3_header_roundtrip_witness :
    DnsHeader.read_buf (DnsHeader.write_buf headerEx []) = .ok (headerEx, []) :=
  c3_header_roundtrip headerEx (by decide) (by decide) (by decide) (by decide)
    (by decide) (by decide) (by decide)

/-- Claim C4: encoding the name "a.b.c" produces exactly the bytes
[1,'a',1,'b',1,'c',0] (and a question with that name emits them before its
type and class), and decoding those bytes yields the name "a.b.c" again. -/
theorem c4_name_codec_abc :
    writeName "a.b.c" [] = bytesToBits [1, 97, 1, 98, 1, 99, 0]
    ∧ Question.write_buf { qname := "a.b.c", qtype := QType.A, qclass := QClass.IN } []
        = bytesToBits [1, 97, 1, 98, 1, 99, 0, 0, 1, 0, 1]
    ∧ readTokens (bytesToBits [1, 97, 1, 98, 1, 99, 0]) = .ok (["a", "b", "c"], [])
    ∧ String.intercalate "." ["a", "b", "c"] = "a.b.c"
    ∧ Question.read_buf (bytesToBits [1, 97, 1, 98, 1, 99, 0, 0, 1, 0, 1])
        = .ok ({ qname := "a.b.c", qtype := QType.A, qclass := QClass.IN }, []) := by
  decide

/-- Claim C9: question decode on a buffer whose label bytes are not valid
UTF-8 (here a one-byte label 0xFF) aborts the process (models the `panic!`)
instead of returning a recoverable error. -/
theorem c9_invalid_utf8_label_aborts :
    Question.read_buf (bytesToBits [1, 255]) = RRes.panicked := by decide

/-- Claim C7: wire-code decode is strict and closed — type code 1 is A,
5 is CNAME, class code 1 is IN, and every other code is an error, never an
Unknown variant — while encode is total and maps Unknown codes through. -/
theorem c7_type_class_codes :
    (∀ code : Nat, QType.from_u16 code =
        if code = 1 then some QType.A else if code = 5 then some QType.CNAME else none)
    ∧ (∀ code : Nat, QClass.from_u16 code = if code = 1 then some QClass.IN else none)
    ∧ QType.to_u16 QType.A = 1 ∧ QType.to_u16 QType.CNAME = 5
    ∧ (∀ v : Nat, QType.to_u16 (QType.Unknown v) = v)
    ∧ QClass.to_u16 QClass.IN = 1 ∧ (∀ v : Nat, QClass.to_u16 (QClass.Unknown v) = v) := by
  refine ⟨?_, ?_, rfl, rfl, fun v => rfl, rfl, fun v => rfl⟩
  · intro code
    match code with
    | 0 => rfl
    | 1 => rfl
    | 2 => rfl
    | 3 => rfl
    | 4 => rfl
    | 5 => rfl
    | n + 6 =>
      have h1 : ¬(n + 6 = 1) := by omega
      have h5 : ¬(n + 6 = 5) := by omega
      rw [if_neg h1, if_neg h5]
      rfl
  · intro code
    match code with
    | 0 => rfl
    | 1 => rfl
    | n + 2 =>
      have h1 : ¬(n + 2 = 1) := by omega
      rw [if_neg h1]
      rfl

/-- Claim C8: message decode reads the header and then exactly
`header.questions` question entries — never the answer, authority, or
additional sections, whatever their count fields say (appending anything
after the questions never changes a successful decode, and the decoded
answers are empty) — and message encode emits the header, then every
question in order, then every answer in order, and nothing else. -/
theorem c8_message_sections :
    (∀ (bits : List Bool) (q : DnsQuery), DnsQuery.from_buffer bits = .ok q →
       q.answers = [] ∧ q.questions.length = q.header.questions
       ∧ ∀ ex, DnsQuery.from_buffer (bits ++ ex) = .ok q)
    ∧ (∀ (q : DnsQuery) (buf : List Bool), DnsQuery.write_buf q buf
        = buf ++ DnsHeader.write_buf q.header []
          ++ (q.questions.map (fun x => Question.write_buf x [])).flatten
          ++ (q.answers.map (fun a => Answer.write_buf a [])).flatten) := by
  constructor
  · intro bits q h
    obtain ⟨h1, h2⟩ := DnsQuery.from_buffer_shape bits q h
    exact ⟨h1, h2, fun ex => DnsQuery.from_buffer_append bits q ex h⟩
  · intro q buf
    rw [DnsQuery.write_buf]
    have hh : DnsHeader.write_buf q.header buf = buf ++ DnsHeader.write_buf q.header [] := by
      simpa using header_write_append q.header buf []
    rw [hh, questionsFoldl_flatten, answersFoldl_flatten]

/-- Witness for C8: a concrete zero-question message decodes to itself, with
no answers, and stays stable under trailing bytes. -/
theorem c8_message_sections_witness :
    query0Ex.answers = []
    ∧ query0Ex.questions.length = query0Ex.header.questions
    ∧ DnsQuery.from_buffer (DnsQuery.write_buf query0Ex [] ++ bytesToBits [7])
        = .ok query0Ex :=
  ⟨(c8_message_sections.1 (DnsQuery.write_buf query0Ex []) query0Ex (by decide)).1,
   (c8_message_sections.1 (DnsQuery.write_buf query0Ex []) query0Ex (by decide)).2.1,
   (c8_message_sections.1 (DnsQuery.write_buf query0Ex []) query0Ex (by decide)).2.2
     (bytesToBits [7])⟩

end Dns
